import Mathlib

/-!
Verification of the zug autonomous coding agent (Go) against its
natural-language specification.  The definitions below are a shallow
embedding of the Go source in `src/unnamed/part_001`, the full variant of
the agent (the repository contains two earlier, overlapping drafts of the
same design in `src/zug.go` and `src/unnamed/part_002`; the specified
components — sandbox, sliding context window, bounded tool loop, bounded
feedback loop, folded shell output — are the ones implemented by
`part_001`).

Strings are modelled as lists of characters (Go strings at rune level; all
inputs involved in the claims are ASCII, where bytes and runes coincide).
The filesystem is modelled as a partial map from absolute paths to file
contents.  The external model service is modelled as a script of replies,
and the Go regexp library is modelled by an abstract compiled-pattern
interface carrying the library contract that a pattern which does not
match a string leaves it unchanged under ReplaceAllString.
-/

namespace Zug

/-- Abbreviation used throughout: a Go string at rune level. -/
abbrev Str : Type := List Char

/-- Conversion from a Lean string literal to the rune-list model. -/
def str (s : String) : Str := s.data

deriving instance DecidableEq for Except

/-- Go `filepath.IsAbs` on Unix: the path begins with the separator. -/
def isAbs : Str → Bool
  | [] => false
  | c :: _ => c == '/'

/-- Splits a path into the segments between separators (both boundary and
repeated separators yield empty segments, exactly as splitting the
underlying string on the separator would). -/
def splitSep : List Char → List (List Char)
  | [] => [[]]
  | c :: rest =>
    if c = '/' then [] :: splitSep rest
    else
      match splitSep rest with
      | [] => [[c]]
      | s :: ss => (c :: s) :: ss

/-- Segment processing of Go `filepath.Clean` (Unix): empty and `.`
segments are dropped; a `..` segment pops the previous real segment, is
dropped at the root of an absolute path, and is kept (stacked) at the
start of a relative path.  The accumulator holds processed segments in
reverse order. -/
def cleanSegs (rooted : Bool) : List (List Char) → List (List Char) → List (List Char)
  | stack, [] => stack.reverse
  | stack, seg :: rest =>
    if seg = [] ∨ seg = ['.'] then cleanSegs rooted stack rest
    else if seg = ['.', '.'] then
      match stack with
      | top :: stack' =>
        if top = ['.', '.'] then cleanSegs rooted (seg :: top :: stack') rest
        else cleanSegs rooted stack' rest
      | [] =>
        if rooted then cleanSegs rooted [] rest
        else cleanSegs rooted [seg] rest
    else cleanSegs rooted (seg :: stack) rest

/-- Go `filepath.Clean` on Unix, via its standard segment semantics. -/
def clean (p : Str) : Str :=
  if p = [] then ['.']
  else if isAbs p then '/' :: List.intercalate ['/'] (cleanSegs true [] (splitSep p))
  else
    let segs := cleanSegs false [] (splitSep p)
    if segs = [] then ['.'] else List.intercalate ['/'] segs

/-- Go `filepath.Join` restricted to two elements: empty elements are
skipped, the remaining ones are joined with the separator, and the result
is cleaned; joining two empty strings yields the empty string. -/
def goJoin (a b : Str) : Str :=
  if a ≠ [] then clean (a ++ '/' :: b)
  else if b ≠ [] then clean b
  else []

/-- Error values of the agent's capability layer.  `invalidRel` is the
"must be relative and stay within project dir" error of `absPath`,
`escapes` its "escapes project dir" error, and `ioErr` stands for a
failed read of the named file. -/
inductive ToolErr : Type where
  | invalidRel (rel : Str)
  | escapes (rel : Str)
  | ioErr (path : Str)
  | emptyArg (argName : Str)
deriving DecidableEq

/-- The sandbox path resolution `absPath` of the agent: clean the relative
path; reject it when the cleaned form is absolute, begins with `../`, or
equals `..`; join it with the project root; reject the join unless the
cleaned root followed by a separator is a prefix of it or it equals the
cleaned root; otherwise return the joined path. -/
def absPath (projectDir rel : Str) : Except ToolErr Str :=
  let cl := clean rel
  if isAbs cl || List.isPrefixOf (str "../") cl || cl == str ".." then
    .error (.invalidRel rel)
  else
    let full := goJoin projectDir cl
    let cleanProjectDir := clean projectDir
    if !(List.isPrefixOf (cleanProjectDir ++ ['/']) full) && full != cleanProjectDir then
      .error (.escapes rel)
    else
      .ok full

/-- The filesystem, modelled as a partial map from absolute paths to file
contents.  Directory creation (`os.MkdirAll`), which always precedes a
write in the agent and only fails on an I/O error outside the model,
is represented as always succeeding. -/
abbrev FS : Type := Str → Option Str

/-- Writing a file: the map is updated at the given absolute path,
overwriting any previous content. -/
def writeFS (fs : FS) (p c : Str) : FS :=
  fun q => if q = p then some c else fs q

/-- Result message of `createFile`. -/
def createdMsg (p : Str) : Str := str "file " ++ p ++ str " created"

/-- No-op result message of `updateFile` (returned when the replacement
left the content identical). -/
def noopMsg (p : Str) : Str :=
  str "nothing replaced in " ++ p ++
    str " (content was identical or find pattern did not match)"

/-- Success result message of `updateFile` (returned when the file was
rewritten). -/
def updatedMsg (p : Str) : Str := str "updated " ++ p

/-- The agent's `createFile`: resolve the path through the sandbox, make
the parent directories, and write the content (overwriting).  Returns the
confirmation message and the new filesystem. -/
def createFile (projectDir : Str) (fs : FS) (path content : Str) :
    Except ToolErr Str × FS :=
  match absPath projectDir path with
  | .error e => (.error e, fs)
  | .ok full => (.ok (createdMsg path), writeFS fs full content)

/-- The agent's `readFile`: resolve the path through the sandbox and
return the file content verbatim, or an I/O error if the file is absent. -/
def readFile (projectDir : Str) (fs : FS) (path : Str) : Except ToolErr Str :=
  match absPath projectDir path with
  | .error e => .error e
  | .ok full =>
    match fs full with
    | none => .error (.ioErr path)
    | some c => .ok c

/-- Occurrence test for a literal substring, by scanning every suffix
(the rune-level model of Go `strings.Contains`). -/
def containsSub (find : Str) : Str → Bool
  | [] => List.isPrefixOf find []
  | c :: rest => List.isPrefixOf find (c :: rest) || containsSub find rest

/-- One left-to-right scan of non-overlapping literal replacement: at each
position, if `find` (assumed non-empty) is a prefix, emit `repl` and skip
past the match, otherwise keep the character.  The fuel bounds the number
of steps; `s.length` steps always suffice because every step consumes at
least one character. -/
def replaceScan (find repl : Str) : Nat → Str → Str
  | _, [] => []
  | 0, s => s
  | fuel + 1, c :: rest =>
    if List.isPrefixOf find (c :: rest) then
      repl ++ replaceScan find repl fuel (List.drop find.length (c :: rest))
    else
      c :: replaceScan find repl fuel rest

/-- Insertion of `r` at every rune boundary of `s`: the result of
replacing the empty string in `s` (Go semantics, both for
`strings.ReplaceAll` with an empty pattern and for the compiled empty
regular expression, which matches at every position). -/
def emptyInsert (s r : Str) : Str :=
  r ++ (s.map (fun c => c :: r)).flatten

/-- Go `strings.ReplaceAll`: identical old/new strings leave the text
unchanged, an empty pattern inserts the replacement at every rune
boundary, and otherwise every non-overlapping occurrence is replaced
left to right. -/
def replaceAll (s find repl : Str) : Str :=
  if find = repl then s
  else if find = [] then emptyInsert s repl
  else replaceScan find repl s.length s

/-- A compiled pattern of the external Go regexp library, modelled by its
interface: a match test and ReplaceAllString, together with the library
contract that ReplaceAllString leaves a string without matches
unchanged. -/
structure GoRegexp where
  matchesStr : Str → Bool
  replAll : Str → Str → Str
  replAll_of_not_matches : ∀ s r, matchesStr s = false → replAll s r = s

/-- The compiled empty pattern: it matches every string (at every
position), and ReplaceAllString inserts the replacement at every rune
boundary. -/
def emptyPatternRegex : GoRegexp where
  matchesStr := fun _ => true
  replAll := fun s r => emptyInsert s r
  replAll_of_not_matches := fun _ _ h => Bool.noConfusion h

/-- The replacement computed by `updateFile`: if the find string compiles
as a pattern, ReplaceAllString; otherwise the literal fallback. -/
def updDst (compile : Str → Option GoRegexp) (src find repl : Str) : Str :=
  match compile find with
  | some re => re.replAll src repl
  | none => replaceAll src find repl

/-- The agent's `updateFile`: resolve the path, read the file, compute the
replacement (pattern or literal fallback), and either report the no-op
message without touching the file or write the changed content back and
report the update message.  Parametric in the regexp compiler, which is
external to the repository. -/
def updateFile (compile : Str → Option GoRegexp) (projectDir : Str) (fs : FS)
    (path find repl : Str) : Except ToolErr Str × FS :=
  match absPath projectDir path with
  | .error e => (.error e, fs)
  | .ok full =>
    match fs full with
    | none => (.error (.ioErr path), fs)
    | some src =>
      let dst := updDst compile src find repl
      if dst = src then (.ok (noopMsg path), fs)
      else (.ok (updatedMsg path), writeFS fs full dst)

/-- Test for the characters Go `strings.TrimSpace` strips in the ASCII
range (space, tab, newline, vertical tab, form feed, carriage return). -/
def isSpaceChar (c : Char) : Bool :=
  c == ' ' || c == '\t' || c == '\n' || c == '\r' ||
    c == Char.ofNat 11 || c == Char.ofNat 12

/-- Go `strings.TrimSpace` at rune level. -/
def trimSpace (s : Str) : Str :=
  ((s.dropWhile isSpaceChar).reverse.dropWhile isSpaceChar).reverse

/-- The `update_file` arm of the agent's `execTool`: decode the JSON
arguments (a key absent from the arguments decodes to the zero value, the
empty string, per Go encoding/json), reject only a blank path, and
dispatch to `updateFile`.  An absent or empty find string is not
rejected. -/
def execToolUpdate (compile : Str → Option GoRegexp) (projectDir : Str) (fs : FS)
    (path : Str) (findArg replArg : Option Str) : Except ToolErr Str × FS :=
  let find := findArg.getD []
  let repl := replArg.getD []
  if trimSpace path = [] then (.error (.emptyArg (str "path")), fs)
  else updateFile compile projectDir fs path find repl

/-- Lowercasing of a Go string (`strings.ToLower`, rune level). -/
def toLowerStr (s : Str) : Str := s.map Char.toLower

/-- The test-output classifier of the feedback loop: the run counts as
passed exactly when the lowercased output contains no "fail" and no
"error" marker and contains either a "pass" marker or the literal
"no tests ran". -/
def classifyPassed (out : Str) : Bool :=
  let l := toLowerStr out
  !containsSub (str "fail") l && !containsSub (str "error") l &&
    (containsSub (str "pass") l || containsSub (str "no tests ran") l)

/-- Two-valued classification of a test run, as used by the feedback
loop. -/
inductive TestClass : Type where
  | passed
  | failed
deriving DecidableEq

/-- The classification step of `feedbackLoop` on the combined test
output. -/
def classifyTest (out : Str) : TestClass :=
  if classifyPassed out then .passed else .failed

/-- Outcome of one execution of an external command, as seen by the Go
caller of CombinedOutput: captured combined output plus either no error,
a non-zero exit status, or a spawn failure. -/
inductive GoExecErr : Type where
  | exitErr (status : Nat)
  | spawnErr (msg : Str)
deriving DecidableEq

/-- The Go error string of an execution failure: `exit status N` for a
non-zero exit (the Error method of ExitError), or the spawn failure
message. -/
def goErrText : GoExecErr → Str
  | .exitErr n => str "exit status " ++ Nat.toDigits 10 n
  | .spawnErr m => m

/-- The agent's `runShell` on the outcome of the spawned command: the
captured combined output is trimmed; when the command failed (non-zero
exit or spawn failure alike) the output and the error string are folded
into a single returned text, and the error component of the result is nil
in every case. -/
def runShell (res : Str × Option GoExecErr) : Str × Option Str :=
  let outputStr := trimSpace res.1
  match res.2 with
  | some e =>
    (str "Output:" ++ '\n' :: outputStr ++ '\n' :: str "ERROR: " ++ goErrText e, none)
  | none => (outputStr, none)

/-- Roles of conversation messages. -/
inductive Role : Type where
  | system
  | user
  | assistant
  | tool
deriving DecidableEq

/-- A conversation message (role and content; tool-call payloads are
carried by the reply model below where they matter). -/
structure Msg : Type where
  role : Role
  content : Str
deriving DecidableEq

/-- The fixed system preamble message.  The stored text is the opening
sentence of the longer literal in the source; no claim depends on the
prompt text, only on the preamble being one fixed system-role message
that is prepended to every request and never stored in the history. -/
def systemPromptMsg : Msg :=
  { role := .system, content := str "You are AutonomousCoder, a senior software engineer." }

/-- The sliding-window bound on the conversation history
(`maxCtxMessages` in the source). -/
def maxCtxMessages : Nat := 40

/-- The trim step of the sliding window: when the history holds more than
`maxMsgs` messages, drop the oldest until exactly `maxMsgs` remain. -/
def trimCtx (maxMsgs : Nat) (ctx : List Msg) : List Msg :=
  if maxMsgs < ctx.length then ctx.drop (ctx.length - maxMsgs) else ctx

/-- Evolution of the agent's history: the source appends messages in
batches (the user prompt; an assistant reply followed by its tool
results) and runs the trim after each batch, so the history after a run
is the left fold of append-then-trim over the batches, starting empty. -/
def histAfterBatches (batches : List (List Msg)) : List Msg :=
  batches.foldl (fun ctx b => trimCtx maxCtxMessages (ctx ++ b)) []

/-- Assembly of an outbound request: the system preamble is prepended
fresh to the (already trimmed) history; the history itself is not
modified. -/
def snapshotForRequest (ctx : List Msg) : List Msg :=
  systemPromptMsg :: ctx

/-- A tool call requested by the model. -/
structure ToolCall : Type where
  id : Str
  name : Str
  args : Str
deriving DecidableEq

/-- One assistant reply from the model service: its content and its
requested tool calls. -/
structure Reply : Type where
  content : Str
  toolCalls : List ToolCall
deriving DecidableEq

/-- Outcome of the inner dispatch loop of `chat`: a final answer, the
protocol violation of an empty reply, or the tool-loop-exceeded error
("too many tool invocations without a final answer"). -/
inductive ChatOutcome : Type where
  | final (answer : Str)
  | emptyContent
  | exceeded
deriving DecidableEq

/-- The hop budget of the inner dispatch loop (`step < 10` in the
source). -/
def maxToolHops : Nat := 10

/-- The inner dispatch loop of `chat`, driven by the script of model
replies (reply `i` answers the i-th request of the turn): each iteration
spends one request/response hop; a reply without tool calls ends the turn
(final answer, or the empty-response error), a reply with tool calls has
them executed and loops.  Returns the outcome and the number of hops
performed. -/
def chatLoop (replies : Nat → Reply) : Nat → Nat → ChatOutcome × Nat
  | 0, _ => (.exceeded, 0)
  | fuel + 1, i =>
    let r := replies i
    if r.toolCalls = [] then
      if r.content = [] then (.emptyContent, 1) else (.final r.content, 1)
    else
      let rest := chatLoop replies fuel (i + 1)
      (rest.1, rest.2 + 1)

/-- One outer turn of `chat`: run the inner loop with the full hop
budget. -/
def chatRun (replies : Nat → Reply) : ChatOutcome × Nat :=
  chatLoop replies maxToolHops 0

/-- What one turn of the outer feedback loop observes: the result of the
inner `chat` call (`none` models a chat-level failure: API error, empty
reply, or exhausted hop budget), whether the tests directory exists, and
the combined test output. -/
structure TurnEnv : Type where
  chatReply : Option Str
  testsDirPresent : Bool
  testOutput : Str

/-- Outcome of the outer feedback loop: aborted on a chat failure, done
because no tests directory exists, done because the tests passed, or the
turn budget was exhausted. -/
inductive FbOutcome : Type where
  | aborted
  | doneNoTests
  | donePassed
  | exhausted
deriving DecidableEq

/-- The turn budget of the outer feedback loop (`turn < 10` in the
source). -/
def maxTurns : Nat := 10

/-- The outer feedback loop of `feedbackLoop`, driven by the per-turn
environment: each iteration spends one turn; a chat failure aborts the
run, a missing tests directory or a passing classification ends it, and a
failing classification reformulates the instruction and loops.  Returns
the outcome and the number of turns performed. -/
def fbLoop (env : Nat → TurnEnv) : Nat → Nat → FbOutcome × Nat
  | 0, _ => (.exhausted, 0)
  | fuel + 1, i =>
    match (env i).chatReply with
    | none => (.aborted, 1)
    | some _ =>
      if (env i).testsDirPresent then
        if classifyPassed (env i).testOutput then (.donePassed, 1)
        else
          let rest := fbLoop env fuel (i + 1)
          (rest.1, rest.2 + 1)
      else (.doneNoTests, 1)

/-- One full run of the outer feedback loop with the full turn budget. -/
def feedbackRun (env : Nat → TurnEnv) : FbOutcome × Nat :=
  fbLoop env maxTurns 0

/-- Example fixtures used by the concrete witnesses below. -/
def fsHello : FS :=
  fun q => if q = str "/p/a.txt" then some (str "hello") else none

def fsAb : FS :=
  fun q => if q = str "/p/a.txt" then some (str "ab") else none

/-- A compiler model on which no string is a valid pattern (every compile
attempt fails, so `updateFile` always takes the literal fallback). -/
def compileNone : Str → Option GoRegexp := fun _ => none

/-- A compiler model fixing only the behaviour the Go regexp library
guarantees for the empty pattern. -/
def compileEmptyOnly : Str → Option GoRegexp :=
  fun f => if f = [] then some emptyPatternRegex else none

def userMsgEx : Msg := { role := .user, content := str "hi" }

def toolCallEx : ToolCall :=
  { id := str "1", name := str "run_shell", args := str "\x7b\x7d" }

/-- A reply that requests a tool call on every hop. -/
def replyToolEx : Reply := { content := [], toolCalls := [toolCallEx] }

/-- A turn on which the tests directory exists and the test run fails. -/
def failTurnEx : TurnEnv :=
  { chatReply := some (str "done"), testsDirPresent := true,
    testOutput := str "1 failed" }

/-! Helper lemmas. -/

/-- The Bool prefix test agrees with the prefix relation. -/
lemma isPrefixOf_true_iff (a b : Str) : List.isPrefixOf a b = true ↔ a <+: b := by
  simp

/-- The substring scan agrees with the infix relation. -/
lemma containsSub_infix_iff (f s : Str) : containsSub f s = true ↔ f <:+: s := by
  induction s with
  | nil => simp [containsSub]
  | cons c rest ih =>
    simp [containsSub, List.infix_cons_iff, ih]

/-- The empty string occurs in every string. -/
lemma containsSub_nil_left (s : Str) : containsSub [] s = true := by
  rw [containsSub_infix_iff]
  exact List.nil_infix

/-- A scan that never finds the literal pattern leaves the string
unchanged, whatever the fuel. -/
lemma replaceScan_of_not_contains (find repl : Str) (fuel : Nat) (s : Str)
    (h : containsSub find s = false) : replaceScan find repl fuel s = s := by
  induction fuel generalizing s with
  | zero => cases s <;> simp [replaceScan]
  | succ n ih =>
    cases s with
    | nil => simp [replaceScan]
    | cons c rest =>
      simp only [containsSub, Bool.or_eq_false_iff] at h
      simp [replaceScan, h.1, ih rest h.2]

/-- Literal replacement of a pattern that does not occur is the
identity. -/
lemma replaceAll_of_not_contains (s find repl : Str)
    (h : containsSub find s = false) : replaceAll s find repl = s := by
  by_cases hfr : find = repl
  · simp [replaceAll, hfr]
  · have hne : find ≠ [] := by
      intro he
      rw [he, containsSub_nil_left s] at h
      exact Bool.noConfusion h
    simp [replaceAll, hfr, hne, replaceScan_of_not_contains find repl s.length s h]

/-- Length of the everywhere-insertion of `r` into `s`. -/
lemma emptyInsert_length (s r : Str) :
    (emptyInsert s r).length = r.length + s.length * (r.length + 1) := by
  induction s with
  | nil => simp [emptyInsert]
  | cons c t ih =>
    simp only [emptyInsert, List.map_cons, List.flatten_cons, List.length_append,
      List.length_cons] at ih ⊢
    have hA : ((t.map fun x => x :: r).flatten).length = t.length * (r.length + 1) := by
      omega
    rw [hA]
    ring

/-- The no-op message of `updateFile` differs from its success message. -/
lemma noopMsg_ne_updatedMsg (p : Str) : noopMsg p ≠ updatedMsg p := by
  intro h
  have hlen := congrArg List.length h
  simp only [noopMsg, updatedMsg, List.length_append] at hlen
  have h1 : (str "nothing replaced in ").length = 20 := by decide
  have h2 : (str " (content was identical or find pattern did not match)").length = 54 := by
    decide
  have h3 : (str "updated ").length = 8 := by decide
  omega

/-- Cleaning preserves absoluteness. -/
lemma isAbs_clean (p : Str) (h : isAbs p = true) : isAbs (clean p) = true := by
  have hne : p ≠ [] := by
    intro he
    rw [he] at h
    exact Bool.noConfusion h
  unfold clean
  rw [if_neg hne, if_pos h]
  rfl

/-- Dropping, from the front, only elements that the window would trim
anyway does not change the trimmed history. -/
lemma trimCtx_drop (N k : Nat) (l : List Msg) (h : N + k ≤ l.length) :
    trimCtx N (l.drop k) = trimCtx N l := by
  unfold trimCtx
  rw [List.length_drop]
  by_cases h1 : N < l.length - k
  · rw [if_pos h1, if_pos (by omega), List.drop_drop]
    congr 1
    omega
  · rw [if_neg h1]
    by_cases h2 : N < l.length
    · rw [if_pos h2]
      have hk : k = l.length - N := by omega
      rw [hk]
    · rw [if_neg h2]
      have hk : k = 0 := by omega
      rw [hk, List.drop_zero]

/-- Trimming an already trimmed history extended by a batch is the same
as trimming the full extended history: the window only ever discards
messages that would be discarded anyway. -/
lemma trimCtx_append_trimCtx (N : Nat) (x y : List Msg) :
    trimCtx N (trimCtx N x ++ y) = trimCtx N (x ++ y) := by
  by_cases hx : N < x.length
  · have hxd : trimCtx N x = x.drop (x.length - N) := by
      unfold trimCtx
      rw [if_pos hx]
    rw [hxd, ← List.drop_append_of_le_length (by omega)]
    exact trimCtx_drop N (x.length - N) (x ++ y) (by rw [List.length_append]; omega)
  · have hxd : trimCtx N x = x := by
      unfold trimCtx
      rw [if_neg hx]
    rw [hxd]

/-- The fold of append-then-trim over batches equals one trim of the
concatenation of all batches. -/
lemma foldl_trimCtx (N : Nat) (bs : List (List Msg)) (c : List Msg) :
    bs.foldl (fun ctx b => trimCtx N (ctx ++ b)) (trimCtx N c) =
      trimCtx N (c ++ bs.flatten) := by
  induction bs generalizing c with
  | nil => simp
  | cons b bs ih =>
    simp only [List.foldl_cons, List.flatten_cons]
    rw [trimCtx_append_trimCtx, ih (c ++ b), List.append_assoc]

/-- The trimmed history only holds messages that were appended. -/
lemma trimCtx_subset (N : Nat) (l : List Msg) : trimCtx N l ⊆ l := by
  unfold trimCtx
  by_cases h : N < l.length
  · rw [if_pos h]
    exact List.drop_subset _ _
  · rw [if_neg h]
    exact fun _ hm => hm

/-- The inner dispatch loop performs at most as many hops as its fuel. -/
lemma chatLoop_hops_le (replies : Nat → Reply) (fuel i : Nat) :
    (chatLoop replies fuel i).2 ≤ fuel := by
  induction fuel generalizing i with
  | zero => simp [chatLoop]
  | succ n ih =>
    by_cases h1 : (replies i).toolCalls = []
    · by_cases h2 : (replies i).content = [] <;> simp [chatLoop, h1, h2]
    · simp only [chatLoop, if_neg h1]
      exact Nat.succ_le_succ (ih (i + 1))

/-- When every scripted reply requests a tool call, the inner loop burns
its whole fuel and ends in the exceeded outcome. -/
lemma chatLoop_exceeded (replies : Nat → Reply) (fuel i : Nat)
    (h : ∀ j, j < fuel → (replies (i + j)).toolCalls ≠ []) :
    chatLoop replies fuel i = (.exceeded, fuel) := by
  induction fuel generalizing i with
  | zero => simp [chatLoop]
  | succ n ih =>
    have h0 : (replies i).toolCalls ≠ [] := by
      have := h 0 (Nat.succ_pos n)
      rwa [Nat.add_zero] at this
    have harg : ∀ j, j < n → (replies (i + 1 + j)).toolCalls ≠ [] := by
      intro j hj
      have hx := h (j + 1) (by omega)
      have he : i + (j + 1) = i + 1 + j := by omega
      rwa [he] at hx
    simp only [chatLoop, if_neg h0, ih (i + 1) harg]

/-- The outer feedback loop performs at most as many turns as its fuel. -/
lemma fbLoop_turns_le (env : Nat → TurnEnv) (fuel i : Nat) :
    (fbLoop env fuel i).2 ≤ fuel := by
  induction fuel generalizing i with
  | zero => simp [fbLoop]
  | succ n ih =>
    cases hc : (env i).chatReply with
    | none => simp [fbLoop, hc]
    | some v =>
      by_cases h1 : (env i).testsDirPresent
      · by_cases h2 : classifyPassed (env i).testOutput
        · simp [fbLoop, hc, h1, h2]
        · simp only [fbLoop, hc, if_pos h1, if_neg h2]
          exact Nat.succ_le_succ (ih (i + 1))
      · simp [fbLoop, hc, h1]

/-- When every scripted turn has a chat reply, a tests directory, and a
failing classification, the outer loop burns its whole fuel and ends
exhausted. -/
lemma fbLoop_exhausted (env : Nat → TurnEnv) (fuel i : Nat)
    (h : ∀ j, j < fuel → (env (i + j)).chatReply ≠ none ∧
      (env (i + j)).testsDirPresent = true ∧
      classifyPassed (env (i + j)).testOutput = false) :
    fbLoop env fuel i = (.exhausted, fuel) := by
  induction fuel generalizing i with
  | zero => simp [fbLoop]
  | succ n ih =>
    have h0 := h 0 (Nat.succ_pos n)
    rw [Nat.add_zero] at h0
    obtain ⟨v, hv⟩ := Option.ne_none_iff_exists'.mp h0.1
    have harg : ∀ j, j < n → (env (i + 1 + j)).chatReply ≠ none ∧
        (env (i + 1 + j)).testsDirPresent = true ∧
        classifyPassed (env (i + 1 + j)).testOutput = false := by
      intro j hj
      have hx := h (j + 1) (by omega)
      have he : i + (j + 1) = i + 1 + j := by omega
      rwa [he] at hx
    simp only [fbLoop, hv, if_pos h0.2.1, h0.2.2, if_neg (Bool.false_ne_true),
      ih (i + 1) harg]

/-! Claim theorems. -/

/-- C1, counterexample: the claim states that every relative path
containing a parent-traversal segment is rejected, but `a/../b` contains
the segment `..` and is accepted by `absPath` (its cleaned form is `b`,
which stays inside the root). -/
theorem C1_counterexample :
    (splitSep (str "a/../b")).contains (str "..") = true ∧
      absPath (str "/p") (str "a/../b") = .ok (str "/p/b") :=
  ⟨by decide, by decide⟩

/-- C1 (amended): for every relative path that is absolute, or whose
cleaned (normalized) form equals `..` or begins with `../` — rather than
merely containing a `..` segment somewhere — `absPath` returns the
invalid-path error, regardless of the configured root directory.  All
capabilities resolve paths through this single function. -/
theorem C1_absPath_rejects (root rel : Str)
    (h : isAbs rel = true ∨ clean rel = str ".." ∨
      List.isPrefixOf (str "../") (clean rel) = true) :
    absPath root rel = .error (.invalidRel rel) := by
  have hcond : (isAbs (clean rel) || List.isPrefixOf (str "../") (clean rel) ||
      (clean rel == str "..")) = true := by
    rcases h with h | h | h
    · simp [isAbs_clean rel h]
    · simp [h]
    · simp [h]
  unfold absPath
  rw [if_pos hcond]

/-- C1, witness: an absolute path is rejected whatever the root. -/
theorem C1_witness :
    (isAbs (str "/etc/passwd") = true ∨ clean (str "/etc/passwd") = str ".." ∨
        List.isPrefixOf (str "../") (clean (str "/etc/passwd")) = true) ∧
      absPath (str "/p") (str "/etc/passwd") =
        .error (.invalidRel (str "/etc/passwd")) :=
  ⟨Or.inl (by decide),
   C1_absPath_rejects (str "/p") (str "/etc/passwd") (Or.inl (by decide))⟩

/-- C2, counterexample: the claim states that every accepted path
resolves to a location that has the root as a strict ancestor, but the
input `.` is accepted and resolves to the root itself, of which the root
is not a strict ancestor (the normalized root plus separator is not a
prefix of it). -/
theorem C2_counterexample :
    absPath (str "/p") (str ".") = .ok (str "/p") ∧
      ¬ (clean (str "/p") ++ ['/']) <+: str "/p" :=
  ⟨by decide, by decide⟩

/-- C2 (amended): whenever `absPath` succeeds, the returned path — the
cleaned input joined with the root — either has the normalized root plus
a path separator as a prefix (so that look-alike siblings such as `root2`
are never accepted as inside `root`) or equals the normalized root
itself. -/
theorem C2_absPath_contained (root rel full : Str)
    (h : absPath root rel = .ok full) :
    (clean root ++ ['/']) <+: full ∨ full = clean root := by
  simp only [absPath] at h
  split at h
  · exact absurd h (by simp)
  · split at h
    · exact absurd h (by simp)
    · next hc =>
      have hfull : goJoin root (clean rel) = full := by
        injection h
      rw [← hfull]
      have hc' : List.isPrefixOf (clean root ++ ['/']) (goJoin root (clean rel)) = false →
          goJoin root (clean rel) = clean root := by
        simpa [Bool.and_eq_true, Bool.not_eq_true', bne_iff_ne] using hc
      by_cases hp : List.isPrefixOf (clean root ++ ['/']) (goJoin root (clean rel)) = true
      · exact Or.inl ((isPrefixOf_true_iff _ _).mp hp)
      · exact Or.inr (hc' (Bool.eq_false_iff.mpr hp))

/-- C2, witness: a plain relative file path resolves under the root with
the separator-guarded prefix. -/
theorem C2_witness :
    absPath (str "/p") (str "sub/file.go") = .ok (str "/p/sub/file.go") ∧
      ((clean (str "/p") ++ ['/']) <+: str "/p/sub/file.go" ∨
        str "/p/sub/file.go" = clean (str "/p")) :=
  ⟨by decide,
   C2_absPath_contained (str "/p") (str "sub/file.go") (str "/p/sub/file.go") (by decide)⟩

/-- C3: when the find argument does not match as a compiled pattern (for
any behaviour of the external regexp compiler consistent with its
contract) and does not occur in the file content as a literal substring,
`updateFile` returns the no-op descriptor — an `ok` result distinct from
the success descriptor, not an error — and leaves the filesystem
untouched; moreover the file is written back only when the computed
replacement changed the content. -/
theorem C3_updateFile_noop (compile : Str → Option GoRegexp) (root : Str) (fs : FS)
    (path find repl full src : Str)
    (hres : absPath root path = .ok full)
    (hfile : fs full = some src)
    (hre : ∀ re, compile find = some re → re.matchesStr src = false)
    (hlit : containsSub find src = false) :
    updateFile compile root fs path find repl = (.ok (noopMsg path), fs) ∧
      noopMsg path ≠ updatedMsg path ∧
      ∀ f2 r2, updDst compile src f2 r2 = src →
        (updateFile compile root fs path f2 r2).2 = fs := by
  have hdst : updDst compile src find repl = src := by
    unfold updDst
    cases hc : compile find with
    | some re => exact re.replAll_of_not_matches src repl (hre re hc)
    | none => exact replaceAll_of_not_contains src find repl hlit
  refine ⟨?_, noopMsg_ne_updatedMsg path, ?_⟩
  · simp [updateFile, hres, hfile, hdst]
  · intro f2 r2 hd
    simp [updateFile, hres, hfile, hd]

/-- C3, witness: `xyz` is not a substring of `hello`, and with a compiler
on which it is not a valid pattern the update is a no-op. -/
theorem C3_witness :
    containsSub (str "xyz") (str "hello") = false ∧
      updateFile compileNone (str "/p") fsHello (str "a.txt") (str "xyz") (str "R") =
        (.ok (noopMsg (str "a.txt")), fsHello) :=
  ⟨by decide,
   (C3_updateFile_noop compileNone (str "/p") fsHello (str "a.txt") (str "xyz")
      (str "R") (str "/p/a.txt") (str "hello") (by decide) (by decide)
      (fun re h => Option.noConfusion h) (by decide)).1⟩

/-- C9: for every sandbox-valid relative path and every content string,
`createFile` followed by `readFile` on the same path returns exactly the
written content. -/
theorem C9_create_read (root : Str) (fs : FS) (p c full : Str)
    (h : absPath root p = .ok full) :
    readFile root (createFile root fs p c).2 p = .ok c := by
  simp [createFile, readFile, h, writeFS]

/-- C9, witness: writing then reading `a.txt` under root `/p` returns the
written content. -/
theorem C9_witness :
    absPath (str "/p") (str "a.txt") = .ok (str "/p/a.txt") ∧
      readFile (str "/p")
          (createFile (str "/p") (fun _ => none) (str "a.txt") (str "hello")).2
          (str "a.txt") =
        .ok (str "hello") :=
  ⟨by decide,
   C9_create_read (str "/p") (fun _ => none) (str "a.txt") (str "hello")
     (str "/p/a.txt") (by decide)⟩

/-- C4: after any sequence of append batches totalling more than N = 40
messages, the history holds exactly the 40 most recently appended
messages in their original relative order (the oldest were dropped
first); it never holds a message that was not appended — in particular
the system preamble, which is instead prepended fresh when a request is
assembled and therefore does not count against the bound. -/
theorem C4_history_window (batches : List (List Msg))
    (h : maxCtxMessages < batches.flatten.length) :
    histAfterBatches batches =
        batches.flatten.drop (batches.flatten.length - maxCtxMessages) ∧
      (histAfterBatches batches).length = maxCtxMessages ∧
      (systemPromptMsg ∉ batches.flatten → systemPromptMsg ∉ histAfterBatches batches) ∧
      snapshotForRequest (histAfterBatches batches) =
        systemPromptMsg :: histAfterBatches batches := by
  have hh : histAfterBatches batches = trimCtx maxCtxMessages batches.flatten := by
    have h0 : trimCtx maxCtxMessages ([] : List Msg) = [] := by
      simp [trimCtx]
    unfold histAfterBatches
    rw [← h0, foldl_trimCtx, List.nil_append]
  refine ⟨?_, ?_, ?_, rfl⟩
  · rw [hh]
    unfold trimCtx
    rw [if_pos h]
  · rw [hh]
    unfold trimCtx
    rw [if_pos h, List.length_drop]
    omega
  · intro hmem hcontra
    exact hmem (trimCtx_subset maxCtxMessages batches.flatten (hh ▸ hcontra))

/-- C4, witness: forty-one single-message batches leave exactly the forty
most recent messages. -/
theorem C4_witness :
    maxCtxMessages < (List.replicate 41 [userMsgEx]).flatten.length ∧
      histAfterBatches (List.replicate 41 [userMsgEx]) =
        (List.replicate 41 [userMsgEx]).flatten.drop
          ((List.replicate 41 [userMsgEx]).flatten.length - maxCtxMessages) :=
  ⟨by decide, (C4_history_window (List.replicate 41 [userMsgEx]) (by decide)).1⟩

/-- C5: the inner dispatch loop of `chat` performs at most H = 10
request/response hops per outer turn, and when every reply of the turn
requests a tool call it performs exactly 10 hops and returns the
tool-loop-exceeded outcome instead of looping further. -/
theorem C5_chat_hop_budget (replies : Nat → Reply) :
    (chatRun replies).2 ≤ maxToolHops ∧
      ((∀ i, i < maxToolHops → (replies i).toolCalls ≠ []) →
        chatRun replies = (.exceeded, maxToolHops)) := by
  constructor
  · exact chatLoop_hops_le replies maxToolHops 0
  · intro h
    unfold chatRun
    exact chatLoop_exceeded replies maxToolHops 0
      (fun j hj => by rw [Nat.zero_add]; exact h j hj)

/-- C5, witness: a script whose every reply requests a tool call makes
the loop end in the exceeded outcome after exactly ten hops. -/
theorem C5_witness :
    (∀ i, i < maxToolHops → ((fun _ => replyToolEx) i).toolCalls ≠ []) ∧
      chatRun (fun _ => replyToolEx) = (.exceeded, maxToolHops) :=
  ⟨by decide, (C5_chat_hop_budget (fun _ => replyToolEx)).2 (by decide)⟩

/-- C6: the outer feedback loop performs at most T = 10 turns, and when
every turn produces a chat reply, finds a tests directory, and classifies
the test run as failed, it performs exactly 10 turns and ends in the
exhausted outcome instead of iterating forever. -/
theorem C6_feedback_turn_budget (env : Nat → TurnEnv) :
    (feedbackRun env).2 ≤ maxTurns ∧
      ((∀ i, i < maxTurns → (env i).chatReply ≠ none ∧
          (env i).testsDirPresent = true ∧
          classifyPassed (env i).testOutput = false) →
        feedbackRun env = (.exhausted, maxTurns)) := by
  constructor
  · exact fbLoop_turns_le env maxTurns 0
  · intro h
    unfold feedbackRun
    exact fbLoop_exhausted env maxTurns 0
      (fun j hj => by rw [Nat.zero_add]; exact h j hj)

/-- C6, witness: a run on which every test execution fails ends exhausted
after exactly ten turns. -/
theorem C6_witness :
    (∀ i, i < maxTurns → ((fun _ => failTurnEx) i).chatReply ≠ none ∧
        ((fun _ => failTurnEx) i).testsDirPresent = true ∧
        classifyPassed ((fun _ => failTurnEx) i).testOutput = false) ∧
      feedbackRun (fun _ => failTurnEx) = (.exhausted, maxTurns) :=
  ⟨by decide, (C6_feedback_turn_budget (fun _ => failTurnEx)).2 (by decide)⟩

/-- C7, counterexample: the claim states that a failure to spawn the
process is a hard error, but `runShell` folds a spawn failure into the
returned text exactly like a non-zero exit and returns a nil error for it
as well. -/
theorem C7_counterexample :
    runShell (str "out", some (.spawnErr (str "no such file"))) =
      (str "Output:" ++ '\n' :: str "out" ++ '\n' :: str "ERROR: " ++ str "no such file",
        none) := by
  decide

/-- C7 (amended): for every command outcome, `runShell` reports no hard
error at all — the error component of its result is always nil — and
whenever the command failed (non-zero exit status or spawn failure
alike), the returned text folds together the trimmed captured combined
output and the Go error string, both occurring in it verbatim. -/
theorem C7_runShell_folds (out : Str) (errOutcome : Option GoExecErr) :
    (runShell (out, errOutcome)).2 = none ∧
      (∀ e, errOutcome = some e →
        (runShell (out, errOutcome)).1 =
            str "Output:" ++ '\n' :: trimSpace out ++ '\n' :: str "ERROR: " ++ goErrText e ∧
          trimSpace out <:+: (runShell (out, errOutcome)).1 ∧
          goErrText e <:+: (runShell (out, errOutcome)).1) := by
  cases errOutcome with
  | none => exact ⟨rfl, fun e he => Option.noConfusion he⟩
  | some e =>
    refine ⟨rfl, ?_⟩
    intro e' he'
    injection he' with h
    subst h
    refine ⟨rfl, ?_, ?_⟩
    · exact ⟨str "Output:" ++ ['\n'], '\n' :: str "ERROR: " ++ goErrText e, by
        simp [runShell]⟩
    · exact ⟨str "Output:" ++ '\n' :: trimSpace out ++ '\n' :: str "ERROR: ", [], by
        simp [runShell]⟩

/-- C7, witness: a non-zero exit leaves the error component nil and the
trimmed output occurs in the folded text. -/
theorem C7_witness :
    (runShell (str " hi ", some (.exitErr 1))).2 = none ∧
      trimSpace (str " hi ") <:+: (runShell (str " hi ", some (.exitErr 1))).1 :=
  ⟨(C7_runShell_folds (str " hi ") (some (.exitErr 1))).1,
   ((C7_runShell_folds (str " hi ") (some (.exitErr 1))).2 (.exitErr 1) rfl).2.1⟩

/-- C8: the test classifier returns Passed exactly when the lowercased
output contains no failure marker (`fail`) and no error marker (`error`)
and contains a success marker (`pass`) or the no-tests-collected marker
(`no tests ran`), and returns Failed in every other case. -/
theorem C8_classifier (out : Str) :
    (classifyTest out = .passed ↔
      (¬ str "fail" <:+: toLowerStr out ∧ ¬ str "error" <:+: toLowerStr out ∧
        (str "pass" <:+: toLowerStr out ∨ str "no tests ran" <:+: toLowerStr out))) ∧
      (classifyTest out = .failed ↔
        ¬ (¬ str "fail" <:+: toLowerStr out ∧ ¬ str "error" <:+: toLowerStr out ∧
          (str "pass" <:+: toLowerStr out ∨ str "no tests ran" <:+: toLowerStr out))) := by
  have hp : classifyPassed out = true ↔
      (¬ str "fail" <:+: toLowerStr out ∧ ¬ str "error" <:+: toLowerStr out ∧
        (str "pass" <:+: toLowerStr out ∨ str "no tests ran" <:+: toLowerStr out)) := by
    unfold classifyPassed
    simp [← containsSub_infix_iff, and_assoc]
  constructor
  · rw [← hp]
    unfold classifyTest
    by_cases hcp : classifyPassed out = true
    · simp [hcp]
    · simp [hcp]
  · rw [← hp]
    unfold classifyTest
    by_cases hcp : classifyPassed out = true
    · simp [hcp]
    · simp [hcp]

/-- C10: when the find argument is empty — also when the find key is
absent, since an absent key decodes to the empty string and the
`update_file` dispatch rejects only a blank path — the empty pattern
compiles and matches at every position, so on a file with non-empty
content and with a non-empty replacement the file is rewritten with the
replacement inserted at every position; the result is neither a no-op
nor a replacement of the entire content. -/
theorem C10_emptyFind_inserts (compile : Str → Option GoRegexp) (root : Str) (fs : FS)
    (path full src repl : Str)
    (hc : compile [] = some emptyPatternRegex)
    (hpath : trimSpace path ≠ [])
    (hres : absPath root path = .ok full)
    (hfile : fs full = some src)
    (hsrc : src ≠ []) (hrepl : repl ≠ []) :
    execToolUpdate compile root fs path none (some repl) =
        (.ok (updatedMsg path), writeFS fs full (emptyInsert src repl)) ∧
      emptyInsert src repl ≠ src ∧ emptyInsert src repl ≠ repl := by
  have hsl : src.length ≠ 0 := fun h => hsrc (List.length_eq_zero.mp h)
  have hrl : repl.length ≠ 0 := fun h => hrepl (List.length_eq_zero.mp h)
  have hlen := emptyInsert_length src repl
  have h1 : emptyInsert src repl ≠ src := by
    intro he
    have hle := congrArg List.length he
    rw [hlen, Nat.mul_add, Nat.mul_one] at hle
    omega
  have h2 : emptyInsert src repl ≠ repl := by
    intro he
    have hle := congrArg List.length he
    rw [hlen, Nat.mul_add, Nat.mul_one] at hle
    omega
  refine ⟨?_, h1, h2⟩
  simp [execToolUpdate, hpath, updateFile, hres, hfile, updDst, hc,
    emptyPatternRegex, h1]

/-- C10, witness: an absent find argument on the two-character file `ab`
with replacement `-` rewrites the file to `-a-b-`. -/
theorem C10_witness :
    (str "ab" : Str) ≠ [] ∧ (str "-" : Str) ≠ [] ∧
      execToolUpdate compileEmptyOnly (str "/p") fsAb (str "a.txt") none
          (some (str "-")) =
        (.ok (updatedMsg (str "a.txt")),
          writeFS fsAb (str "/p/a.txt") (emptyInsert (str "ab") (str "-"))) :=
  ⟨by decide, by decide,
   (C10_emptyFind_inserts compileEmptyOnly (str "/p") fsAb (str "a.txt")
      (str "/p/a.txt") (str "ab") (str "-") rfl (by decide) (by decide) (by decide)
      (by decide) (by decide)).1⟩

end Zug
